import Mathlib

/-!
# leveldb-reducer: a shallow embedding of `main.go`

The program opens a source and a target LevelDB store, scans the source with a
forward iterator and, whenever its entry counter exceeds the configured batch
size, writes the two pending batches, measures the source directory and stops
once the measured size is at most `MaxSize`.

The embedding follows `main.go` line by line.  The two libraries the program
calls are represented by what they hand back to the program:

* goleveldb: a store is an association list of entries with a `Put`/`Delete`
  batch interpreter; `DB.Write` either applies the whole batch or returns an
  error and applies nothing, and it leaves the batch object untouched; the
  iterator reads the snapshot of the source taken when it was created.
* `filepath.Walk`: the sequence of `(info, err)` pairs it passes to the
  callback, in order, stopping at the first error the callback returns.

Whether a write fails and what a directory walk sees is decided outside the
program, so both are read from an environment record.
-/

namespace LevelDBReducer

/-! ## Data model -/

/-- Byte strings (`[]byte`); keys and values are opaque to the program. -/
abbrev Bytes := List Nat

/-- Go `error` values the libraries may hand to the program. -/
inductive GoError where
  | notExist
  | permission
  | ioFailure
  deriving DecidableEq, Repr

/-- One record of a `leveldb.Batch`. -/
inductive Op where
  | put (key value : Bytes)
  | delete (key : Bytes)
  deriving DecidableEq, Repr

/-- A `leveldb.Batch`: its records in the order they were appended. -/
abbrev Batch := List Op

/-- A LevelDB store: its entries in iteration order. -/
abbrev Store := List (Bytes × Bytes)

namespace Store

/-- Value bound to `k`, if any. -/
def get (s : Store) (k : Bytes) : Option Bytes :=
  match s with
  | [] => none
  | (k', v') :: rest => if k' = k then some v' else get rest k

/-- Effect of a `Put` record: rebind `k`, or add it when it is absent. -/
def put (s : Store) (k v : Bytes) : Store :=
  match s with
  | [] => [(k, v)]
  | (k', v') :: rest => if k' = k then (k, v) :: rest else (k', v') :: put rest k v

/-- Effect of a `Delete` record: drop every binding of `k`. -/
def delete (s : Store) (k : Bytes) : Store :=
  s.filter (fun p => decide (p.1 ≠ k))

/-- The keys of a store, in iteration order. -/
def keys (s : Store) : List Bytes := s.map Prod.fst

end Store

/-- Effect of one batch record on a store. -/
def applyOp (s : Store) : Op → Store
  | .put k v => s.put k v
  | .delete k => s.delete k

/-- Effect of a successfully written batch: its records applied in order. -/
def applyBatch (s : Store) (b : Batch) : Store :=
  b.foldl applyOp s

/-! ## `getSize` (lines 110-124) -/

/-- The part of `os.FileInfo` the callback reads. -/
structure FileInfo where
  isDir : Bool
  size : Int
  deriving DecidableEq, Repr

/-- One invocation of the walk callback: the `info` and `err` arguments
(`info` is `nil` when the entry could not be stat'ed). -/
structure WalkEvent where
  info : Option FileInfo
  err : Option GoError
  deriving DecidableEq, Repr

/-- Two's-complement wrap-around of `int64` arithmetic. -/
def wrapInt64 (x : Int) : Int :=
  (x + 2 ^ 63) % 2 ^ 64 - 2 ^ 63

/-- The closure passed to `filepath.Walk` (lines 112-118), on the running
total `size`.  `none` is the run-time panic of calling `IsDir` on a nil
`info`; otherwise the new total and the returned error. -/
def walkFn (size : Int) (info : Option FileInfo) (err : Option GoError) :
    Option (Int × Option GoError) :=
  match info with
  | none => none
  | some fi =>
    let size' := if !fi.isDir then wrapInt64 (size + fi.size) else size
    some (size', err)

/-- Result of `filepath.Walk` driving the closure. -/
inductive WalkResult where
  | panicked
  | finished (size : Int) (err : Option GoError)
  deriving DecidableEq, Repr

/-- `filepath.Walk`: calls the closure on each event in turn and stops at the
first error the closure returns. -/
def walk : List WalkEvent → Int → WalkResult
  | [], size => .finished size none
  | e :: rest, size =>
    match walkFn size e.info e.err with
    | none => .panicked
    | some (size', none) => walk rest size'
    | some (size', some er) => .finished size' (some er)

/-- What a call of `getSize` produces. -/
inductive SizeResult where
  | panicked
  | ret (size : Int) (err : Option GoError)
  deriving DecidableEq, Repr

/-- `getSize` (lines 110-124), given what the walk of `path` visits. -/
def getSize (events : List WalkEvent) : SizeResult :=
  match walk events 0 with
  | .panicked => .panicked
  | .finished size err =>
    match err with
    | some e => .ret 0 (some e)
    | none => .ret size none

/-! ## The migration loop of `main` (lines 69-107) -/

/-- The `config` record (lines 14-20). -/
structure config where
  Stats : Bool
  SourceDir : String
  MaxSize : Int
  TargetDir : String
  BatchSize : Int

/-- What the outside world answers during one run.  A round that does not
complete ends the loop, so the `n`-th call of `sdb.Write`, of `tdb.Write` and
of `getSize` all happen in round `n` (counted from 0). -/
structure Env where
  sdbWriteErr : Nat → Option GoError
  tdbWriteErr : Nat → Option GoError
  sourceDirWalk : Nat → List WalkEvent

/-- Calls the loop makes to the stores and to `getSize`, with their results. -/
inductive Event where
  | sdbWrite (batch : Batch) (err : Option GoError)
  | tdbWrite (batch : Batch) (err : Option GoError)
  | getSize (result : SizeResult)
  deriving DecidableEq, Repr

/-- The variables of the loop, the two stores and the call log. -/
structure State where
  sdb : Store
  tdb : Store
  batchIndex : Int
  sourceBatch : Batch
  targetBatch : Batch
  round : Nat
  log : List Event
  deriving DecidableEq, Repr

/-- How the loop was left. -/
inductive Outcome where
  | drained
  | targetReached
  | sourceWriteError (e : GoError)
  | targetWriteError (e : GoError)
  | sizeError (e : GoError)
  | panicked
  deriving DecidableEq, Repr

/-- Result of one pass through the loop body. -/
inductive StepResult where
  | next (st : State)
  | stop (st : State) (o : Outcome)
  deriving DecidableEq, Repr

/-- Lines 100-103: append the entry to both batches and count it.  The
counter is a Go `int` that counts visited entries; a store never holds `2^63`
of them, so the increment is not wrapped. -/
def appendEntry (st : State) (key value : Bytes) : State :=
  { st with
    sourceBatch := st.sourceBatch ++ [Op.put key value]
    targetBatch := st.targetBatch ++ [Op.delete key]
    batchIndex := st.batchIndex + 1 }

/-- Lines 76-103: one pass through the loop body for the entry under the
iterator. -/
def loopBody (cfg : config) (env : Env) (st : State) (key value : Bytes) : StepResult :=
  if st.batchIndex > cfg.BatchSize then
    match env.sdbWriteErr st.round with
    | some e =>
      .stop { st with log := st.log ++ [Event.sdbWrite st.sourceBatch (some e)] }
        (.sourceWriteError e)
    | none =>
      let st1 : State :=
        { st with
          sdb := applyBatch st.sdb st.sourceBatch
          log := st.log ++ [Event.sdbWrite st.sourceBatch none] }
      match env.tdbWriteErr st.round with
      | some e =>
        .stop { st1 with log := st1.log ++ [Event.tdbWrite st.targetBatch (some e)] }
          (.targetWriteError e)
      | none =>
        let st2 : State :=
          { st1 with
            tdb := applyBatch st1.tdb st.targetBatch
            log := st1.log ++ [Event.tdbWrite st.targetBatch none] }
        let r := getSize (env.sourceDirWalk st.round)
        let st3 : State := { st2 with log := st2.log ++ [Event.getSize r] }
        match r with
        | .panicked => .stop st3 .panicked
        | .ret _ (some e) => .stop st3 (.sizeError e)
        | .ret size none =>
          if size ≤ cfg.MaxSize then .stop st3 .targetReached
          else .next (appendEntry { st3 with round := st3.round + 1 } key value)
  else
    .next (appendEntry st key value)

/-- Lines 75-104: the `for iterator.Next()` loop over the entries the
iterator yields (`Next` returning false, for whatever reason, ends the list). -/
def scanLoop (cfg : config) (env : Env) : List (Bytes × Bytes) → State → State × Outcome
  | [], st => (st, .drained)
  | (key, value) :: rest, st =>
    match loopBody cfg env st key value with
    | .stop st' o => (st', o)
    | .next st' => scanLoop cfg env rest st'

/-- Lines 69-73: the state in which the loop is entered. -/
def initState (src tgt : Store) : State :=
  { sdb := src, tdb := tgt, batchIndex := 0, sourceBatch := [], targetBatch := [],
    round := 0, log := [] }

/-- Lines 69-105: the iterator is created over the source as it stands, then
the loop runs. -/
def migrate (cfg : config) (env : Env) (src tgt : Store) : State × Outcome :=
  scanLoop cfg env src (initState src tgt)

/-- The state a pass through the loop body leaves behind. -/
def StepResult.state : StepResult → State
  | .next st => st
  | .stop st _ => st

/-- Lines 100-103 repeated for a run of entries. -/
def accumulate (st : State) (l : List (Bytes × Bytes)) : State :=
  l.foldl (fun s p => appendEntry s p.1 p.2) st

/-- The state after a round whose two writes succeeded and whose size
measurement returned `r` (lines 77-93): both batches applied, three calls
logged, batches and counter as they were. -/
def afterRound (st : State) (r : SizeResult) : State :=
  { st with
    sdb := applyBatch st.sdb st.sourceBatch
    tdb := applyBatch st.tdb st.targetBatch
    log := st.log ++ [Event.sdbWrite st.sourceBatch none,
      Event.tdbWrite st.targetBatch none, Event.getSize r] }

/-- The record line 100 appends for an entry. -/
def entryPut (p : Bytes × Bytes) : Op := Op.put p.1 p.2

/-- The record line 101 appends for an entry. -/
def entryDelete (p : Bytes × Bytes) : Op := Op.delete p.1

/-- Number of write calls in a log. -/
def writeCount : List Event → Nat
  | [] => 0
  | .sdbWrite _ _ :: rest => writeCount rest + 1
  | .tdbWrite _ _ :: rest => writeCount rest + 1
  | .getSize _ :: rest => writeCount rest

/-- Number of `getSize` calls in a log. -/
def probeCount : List Event → Nat
  | [] => 0
  | .getSize _ :: rest => probeCount rest + 1
  | _ :: rest => probeCount rest

/-- A batch record that rewrites an entry of `src`. -/
def RewritesEntryOf (src : Store) (op : Op) : Prop :=
  ∃ k v, op = Op.put k v ∧ (k, v) ∈ src

/-- Invariant of the loop: the source store is `src`, and the pending
source-side batch and every batch handed to `sdb.Write` so far only rewrite
entries of `src`. -/
def SourceInv (src : Store) (st : State) : Prop :=
  st.sdb = src ∧ (∀ op ∈ st.sourceBatch, RewritesEntryOf src op) ∧
  (∀ b e, Event.sdbWrite b e ∈ st.log → ∀ op ∈ b, RewritesEntryOf src op)

/-! ## Concrete inputs -/

/-- A walk over a directory holding one regular file of `n` bytes. -/
def oneFile (n : Int) : List WalkEvent :=
  [{ info := some { isDir := true, size := 0 }, err := none },
   { info := some { isDir := false, size := n }, err := none }]

/-- An environment in which every write succeeds and every walk sees `n` bytes. -/
def envOk (n : Int) : Env :=
  { sdbWriteErr := fun _ => none
    tdbWriteErr := fun _ => none
    sourceDirWalk := fun _ => oneFile n }

/-- A configuration for migration mode. -/
def cfgOf (maxSize batchSize : Int) : config :=
  { Stats := false, SourceDir := "src", MaxSize := maxSize, TargetDir := "tgt",
    BatchSize := batchSize }

/-- The walk of a root path that does not exist: one call, no `info`. -/
def missingRoot : List WalkEvent :=
  [{ info := none, err := some GoError.notExist }]

/-- The walk of a directory one of whose entries cannot be stat'ed. -/
def unreadableEntry : List WalkEvent :=
  [{ info := some { isDir := true, size := 0 }, err := none },
   { info := some { isDir := false, size := 7 }, err := none },
   { info := none, err := some GoError.permission }]

/-- The walk of a directory that cannot be listed: the second call for the
directory carries its `info` together with the error. -/
def unlistableDir : List WalkEvent :=
  [{ info := some { isDir := true, size := 0 }, err := none },
   { info := some { isDir := false, size := 7 }, err := none },
   { info := some { isDir := true, size := 0 }, err := none },
   { info := some { isDir := true, size := 0 }, err := some GoError.permission }]

/-- A source store with four entries. -/
def src4 : Store := [([1], [10]), ([2], [20]), ([3], [30]), ([4], [40])]

/-- A source store with three entries. -/
def src3 : Store := [([1], [10]), ([2], [20]), ([3], [30])]

/-! ## Stores and batches -/

theorem Store.put_eq_self (s : Store) (k v : Bytes) (hn : s.keys.Nodup)
    (hm : (k, v) ∈ s) : s.put k v = s := by
  induction s with
  | nil => simp at hm
  | cons hd tl ih =>
    obtain ⟨k', v'⟩ := hd
    simp only [Store.keys, List.map_cons, List.nodup_cons] at hn
    rcases List.mem_cons.1 hm with h | h
    · cases h
      simp [Store.put]
    · have hne : k' ≠ k := by
        intro hk
        apply hn.1
        subst hk
        exact List.mem_map.2 ⟨(k', v), h, rfl⟩
      simp only [Store.put, hne, if_false]
      rw [ih hn.2 h]

theorem applyBatch_puts_eq_self (s : Store) (hn : s.keys.Nodup) (b : Batch)
    (hb : ∀ op ∈ b, ∃ k v, op = Op.put k v ∧ (k, v) ∈ s) : applyBatch s b = s := by
  induction b with
  | nil => rfl
  | cons op rest ih =>
    obtain ⟨k, v, rfl, hm⟩ := hb _ (List.mem_cons_self _ _)
    have hrest : ∀ op ∈ rest, ∃ k v, op = Op.put k v ∧ (k, v) ∈ s :=
      fun op h => hb op (List.mem_cons_of_mem _ h)
    have := ih hrest
    simp only [applyBatch, List.foldl_cons, applyOp] at this ⊢
    rw [Store.put_eq_self s k v hn hm]
    exact this

/-! ## `getSize` -/

theorem walk_error_of_info_present (events : List WalkEvent) :
    ∀ size : Int, (∀ e ∈ events, e.info ≠ none) → (∃ e ∈ events, e.err ≠ none) →
      ∃ sz er, walk events size = .finished sz (some er) := by
  induction events with
  | nil => intro size _ h; obtain ⟨e, he, _⟩ := h; cases he
  | cons e rest ih =>
    intro size hinfo herr
    cases hi : e.info with
    | none => exact absurd hi (hinfo e (List.mem_cons_self _ _))
    | some fi =>
      cases he : e.err with
      | some er =>
        refine ⟨if !fi.isDir then wrapInt64 (size + fi.size) else size, er, ?_⟩
        simp only [walk, walkFn, hi, he]
      | none =>
        have hrest : ∃ x ∈ rest, x.err ≠ none := by
          obtain ⟨x, hx, hxe⟩ := herr
          rcases List.mem_cons.1 hx with hx | hx
          · subst hx; exact absurd he hxe
          · exact ⟨x, hx, hxe⟩
        obtain ⟨sz, er, hw⟩ := ih (if !fi.isDir then wrapInt64 (size + fi.size) else size)
          (fun x hx => hinfo x (List.mem_cons_of_mem _ hx)) hrest
        refine ⟨sz, er, ?_⟩
        simp only [walk, walkFn, hi, he]
        exact hw

/-- When every call of the walk carries file info, an error reported by the
walk makes `getSize` return that error with size 0. -/
theorem getSize_error_of_info_present (events : List WalkEvent)
    (hinfo : ∀ e ∈ events, e.info ≠ none) (herr : ∃ e ∈ events, e.err ≠ none) :
    ∃ er, getSize events = .ret 0 (some er) := by
  obtain ⟨sz, er, hw⟩ := walk_error_of_info_present events 0 hinfo herr
  exact ⟨er, by simp [getSize, hw]⟩

/-- C8 (what the code does): when the root path does not exist, or an entry
cannot be stat'ed, the walk calls the closure without file info and the
closure panics on `info.IsDir()` before it looks at the error, so `getSize`
crashes instead of returning `(0, err)`; it does return `(0, err)` when the
erroring call carries file info.  In general a first call without file info
makes `getSize` panic whatever error it carries and whatever would follow. -/
theorem getSize_panics_without_info :
    getSize missingRoot = .panicked ∧
    getSize unreadableEntry = .panicked ∧
    getSize missingRoot ≠ .ret 0 (some GoError.notExist) ∧
    getSize unlistableDir = .ret 0 (some GoError.permission) ∧
    (∀ (err : Option GoError) (rest : List WalkEvent),
      getSize ({ info := none, err := err } :: rest) = .panicked) := by
  refine ⟨by decide, by decide, by decide, by decide, ?_⟩
  intro err rest
  rfl

/-! ## The accumulation phase -/

theorem accumulate_nil (st : State) : accumulate st [] = st := rfl

theorem accumulate_cons (st : State) (p : Bytes × Bytes) (l : List (Bytes × Bytes)) :
    accumulate st (p :: l) = accumulate (appendEntry st p.1 p.2) l := rfl

theorem accumulate_fields (l : List (Bytes × Bytes)) : ∀ st : State,
    (accumulate st l).sdb = st.sdb ∧ (accumulate st l).tdb = st.tdb ∧
    (accumulate st l).round = st.round ∧ (accumulate st l).log = st.log ∧
    (accumulate st l).sourceBatch = st.sourceBatch ++ l.map entryPut ∧
    (accumulate st l).targetBatch = st.targetBatch ++ l.map entryDelete ∧
    (accumulate st l).batchIndex = st.batchIndex + l.length := by
  induction l with
  | nil => intro st; simp [accumulate_nil]
  | cons p l ih =>
    intro st
    obtain ⟨h1, h2, h3, h4, h5, h6, h7⟩ := ih (appendEntry st p.1 p.2)
    rw [accumulate_cons]
    refine ⟨?_, ?_, ?_, ?_, ?_, ?_, ?_⟩
    · rw [h1]; rfl
    · rw [h2]; rfl
    · rw [h3]; rfl
    · rw [h4]; rfl
    · rw [h5]; simp [appendEntry, entryPut]
    · rw [h6]; simp [appendEntry, entryDelete]
    · rw [h7]; simp [appendEntry]; ring

theorem loopBody_below (cfg : config) (env : Env) (st : State) (key value : Bytes)
    (h : ¬ st.batchIndex > cfg.BatchSize) :
    loopBody cfg env st key value = .next (appendEntry st key value) := by
  simp [loopBody, h]

/-- A property of running states that every pass of the loop body preserves,
and that yields `Q` whenever the loop is left, decides `Q` for the result. -/
theorem scanLoop_induct (cfg : config) (env : Env) (P : State → Prop)
    (Q : State × Outcome → Prop) (l : List (Bytes × Bytes))
    (hdrain : ∀ st, P st → Q (st, .drained))
    (hnext : ∀ st k v st', (k, v) ∈ l → P st →
      loopBody cfg env st k v = .next st' → P st')
    (hstop : ∀ st k v st' o, (k, v) ∈ l → P st →
      loopBody cfg env st k v = .stop st' o → Q (st', o)) :
    ∀ st, P st → Q (scanLoop cfg env l st) := by
  induction l with
  | nil => intro st h; exact hdrain st h
  | cons p l ih =>
    intro st h
    obtain ⟨k, v⟩ := p
    cases hb : loopBody cfg env st k v with
    | next st' =>
      have hP := hnext st k v st' (List.mem_cons_self _ _) h hb
      have := ih (fun st k v st' hm => hnext st k v st' (List.mem_cons_of_mem _ hm))
        (fun st k v st' o hm => hstop st k v st' o (List.mem_cons_of_mem _ hm)) st' hP
      simpa [scanLoop, hb] using this
    | stop st' o =>
      have := hstop st k v st' o (List.mem_cons_self _ _) h hb
      simpa [scanLoop, hb] using this

/-! ## The branches of a round -/

theorem loopBody_stop_of_le (cfg : config) (env : Env) (st : State)
    (key value : Bytes) (size : Int)
    (hidx : st.batchIndex > cfg.BatchSize)
    (hs : env.sdbWriteErr st.round = none)
    (ht : env.tdbWriteErr st.round = none)
    (hp : getSize (env.sourceDirWalk st.round) = .ret size none) :
    size ≤ cfg.MaxSize →
      loopBody cfg env st key value =
        .stop (afterRound st (.ret size none)) .targetReached := by
  intro hle
  simp [loopBody, hidx, hs, ht, hp, hle, afterRound]

theorem loopBody_next_of_lt (cfg : config) (env : Env) (st : State)
    (key value : Bytes) (size : Int)
    (hidx : st.batchIndex > cfg.BatchSize)
    (hs : env.sdbWriteErr st.round = none)
    (ht : env.tdbWriteErr st.round = none)
    (hp : getSize (env.sourceDirWalk st.round) = .ret size none) :
    cfg.MaxSize < size →
      loopBody cfg env st key value =
        .next (appendEntry
          { afterRound st (.ret size none) with round := st.round + 1 } key value) := by
  intro hlt
  have hnle : ¬ size ≤ cfg.MaxSize := not_le.2 hlt
  simp [loopBody, hidx, hs, ht, hp, hnle, afterRound]

theorem loopBody_sdb_fail (cfg : config) (env : Env) (st : State)
    (key value : Bytes) (e : GoError)
    (hidx : st.batchIndex > cfg.BatchSize)
    (hs : env.sdbWriteErr st.round = some e) :
    loopBody cfg env st key value =
      .stop { st with log := st.log ++ [Event.sdbWrite st.sourceBatch (some e)] }
        (.sourceWriteError e) := by
  simp [loopBody, hidx, hs]

theorem loopBody_tdb_fail (cfg : config) (env : Env) (st : State)
    (key value : Bytes) (e : GoError)
    (hidx : st.batchIndex > cfg.BatchSize)
    (hs : env.sdbWriteErr st.round = none)
    (ht : env.tdbWriteErr st.round = some e) :
    loopBody cfg env st key value =
      .stop { st with
              sdb := applyBatch st.sdb st.sourceBatch
              log := st.log ++ [Event.sdbWrite st.sourceBatch none,
                Event.tdbWrite st.targetBatch (some e)] }
        (.targetWriteError e) := by
  simp [loopBody, hidx, hs, ht]

theorem loopBody_next_fields (cfg : config) (env : Env) (st : State) (k v : Bytes)
    (st' : State) (hb : loopBody cfg env st k v = .next st') :
    st'.batchIndex = st.batchIndex + 1 ∧
    st'.sourceBatch = st.sourceBatch ++ [Op.put k v] ∧
    st'.targetBatch = st.targetBatch ++ [Op.delete k] := by
  unfold loopBody at hb
  split at hb
  · split at hb
    · cases hb
    · split at hb
      · cases hb
      · simp only [] at hb
        split at hb
        · cases hb
        · cases hb
        · split at hb
          · cases hb
          · injection hb with h
            subst h
            exact ⟨rfl, rfl, rfl⟩
  · injection hb with h
    subst h
    exact ⟨rfl, rfl, rfl⟩

/-- Every pass only adds calls at the end of the log. -/
theorem loopBody_log_extends (cfg : config) (env : Env) (st : State) (k v : Bytes) :
    ∃ ext, (loopBody cfg env st k v).state.log = st.log ++ ext := by
  unfold loopBody
  split
  · split
    · exact ⟨_, rfl⟩
    · split
      · exact ⟨_, by simp only [StepResult.state, List.append_assoc]; rfl⟩
      · simp only []
        split
        · exact ⟨_, by simp only [StepResult.state, List.append_assoc]; rfl⟩
        · exact ⟨_, by simp only [StepResult.state, List.append_assoc]; rfl⟩
        · split
          · exact ⟨_, by simp only [StepResult.state, List.append_assoc]; rfl⟩
          · exact ⟨_, by simp only [StepResult.state, appendEntry, List.append_assoc]; rfl⟩
  · exact ⟨[], by simp [StepResult.state, appendEntry]⟩

/-- A pass that starts a round logs the source-side write first. -/
theorem loopBody_round_first_event (cfg : config) (env : Env) (st : State)
    (k v : Bytes) (hidx : st.batchIndex > cfg.BatchSize) :
    ∃ ext, (loopBody cfg env st k v).state.log =
      st.log ++ Event.sdbWrite st.sourceBatch (env.sdbWriteErr st.round) :: ext := by
  cases hs : env.sdbWriteErr st.round with
  | some e =>
    rw [loopBody_sdb_fail cfg env st k v e hidx hs]
    exact ⟨[], rfl⟩
  | none =>
    cases ht : env.tdbWriteErr st.round with
    | some e =>
      rw [loopBody_tdb_fail cfg env st k v e hidx hs ht]
      exact ⟨[Event.tdbWrite st.targetBatch (some e)], rfl⟩
    | none =>
      refine ⟨[Event.tdbWrite st.targetBatch none,
        Event.getSize (getSize (env.sourceDirWalk st.round))], ?_⟩
      cases hp : getSize (env.sourceDirWalk st.round) with
      | panicked => simp [loopBody, hidx, hs, ht, hp, StepResult.state]
      | ret size err =>
        cases err with
        | some e => simp [loopBody, hidx, hs, ht, hp, StepResult.state]
        | none =>
          by_cases hle : size ≤ cfg.MaxSize
          · simp [loopBody, hidx, hs, ht, hp, hle, StepResult.state]
          · simp [loopBody, hidx, hs, ht, hp, hle, StepResult.state, appendEntry]

theorem scanLoop_log_extends (cfg : config) (env : Env) (l : List (Bytes × Bytes)) :
    ∀ st : State, ∃ ext, (scanLoop cfg env l st).1.log = st.log ++ ext := by
  induction l with
  | nil => intro st; exact ⟨[], by simp [scanLoop]⟩
  | cons p l ih =>
    intro st
    obtain ⟨k, v⟩ := p
    obtain ⟨ext1, h1⟩ := loopBody_log_extends cfg env st k v
    cases hb : loopBody cfg env st k v with
    | next st' =>
      rw [hb] at h1
      obtain ⟨ext2, h2⟩ := ih st'
      refine ⟨ext1 ++ ext2, ?_⟩
      have h1' : st'.log = st.log ++ ext1 := h1
      simp only [scanLoop, hb]
      rw [h2, h1', List.append_assoc]
    | stop st' o =>
      rw [hb] at h1
      exact ⟨ext1, by simp only [scanLoop, hb]; exact h1⟩

/-- The first call logged by a loop entered in a state that starts a round. -/
theorem scanLoop_round_first_event (cfg : config) (env : Env) (st : State)
    (k v : Bytes) (rest : List (Bytes × Bytes)) (hidx : st.batchIndex > cfg.BatchSize) :
    ∃ ext, (scanLoop cfg env ((k, v) :: rest) st).1.log =
      st.log ++ Event.sdbWrite st.sourceBatch (env.sdbWriteErr st.round) :: ext := by
  obtain ⟨ext1, h1⟩ := loopBody_round_first_event cfg env st k v hidx
  cases hb : loopBody cfg env st k v with
  | next st' =>
    rw [hb] at h1
    have h1' : st'.log =
        st.log ++ Event.sdbWrite st.sourceBatch (env.sdbWriteErr st.round) :: ext1 := h1
    obtain ⟨ext2, h2⟩ := scanLoop_log_extends cfg env rest st'
    refine ⟨ext1 ++ ext2, ?_⟩
    simp only [scanLoop, hb]
    rw [h2, h1']
    simp
  | stop st' o =>
    rw [hb] at h1
    exact ⟨ext1, by simp only [scanLoop, hb]; exact h1⟩

/-! ## Claims about the loop body -/

/-- C1 (what the code does): every pass that keeps the entry appends exactly
one record to each batch, but the record appended to the source-side batch is
a put of the entry and the one appended to the target-side batch is a delete
of its key, which is the opposite of delete-from-source / upsert-into-target. -/
theorem appendEntry_pairing_reversed (st : State) (key value : Bytes) :
    (appendEntry st key value).sourceBatch = st.sourceBatch ++ [Op.put key value] ∧
    (appendEntry st key value).targetBatch = st.targetBatch ++ [Op.delete key] ∧
    Op.put key value ≠ Op.delete key ∧
    loopBody (cfgOf 1 1000) (envOk 100) (initState [([1], [10])] []) [1] [10] =
      .next { sdb := [([1], [10])], tdb := [], batchIndex := 1,
              sourceBatch := [Op.put [1] [10]], targetBatch := [Op.delete [1]],
              round := 0, log := [] } := by
  refine ⟨rfl, rfl, ?_, ?_⟩
  · intro h; cases h
  · decide

/-- C6: in a pass that starts a round (counter above `BatchSize`) whose two
writes and size measurement succeed, the loop is left exactly when the
measured size is at most `MaxSize`; it is then left with outcome
`targetReached`, the batches as they were and only the round's three calls
added to the log, and otherwise the scan goes on with the current entry
appended to both batches. -/
theorem round_stops_iff_size_le (cfg : config) (env : Env) (st : State)
    (key value : Bytes) (rest : List (Bytes × Bytes)) (size : Int)
    (hidx : st.batchIndex > cfg.BatchSize)
    (hs : env.sdbWriteErr st.round = none)
    (ht : env.tdbWriteErr st.round = none)
    (hp : getSize (env.sourceDirWalk st.round) = .ret size none) :
    ((∃ st' o, loopBody cfg env st key value = .stop st' o) ↔ size ≤ cfg.MaxSize) ∧
    (size ≤ cfg.MaxSize →
      scanLoop cfg env ((key, value) :: rest) st =
        (afterRound st (.ret size none), .targetReached) ∧
      (afterRound st (.ret size none)).sourceBatch = st.sourceBatch ∧
      (afterRound st (.ret size none)).targetBatch = st.targetBatch ∧
      (afterRound st (.ret size none)).log =
        st.log ++ [Event.sdbWrite st.sourceBatch none,
          Event.tdbWrite st.targetBatch none, Event.getSize (.ret size none)]) ∧
    (cfg.MaxSize < size →
      loopBody cfg env st key value =
        .next (appendEntry
          { afterRound st (.ret size none) with round := st.round + 1 } key value) ∧
      scanLoop cfg env ((key, value) :: rest) st =
        scanLoop cfg env rest (appendEntry
          { afterRound st (.ret size none) with round := st.round + 1 } key value)) := by
  have hstop := loopBody_stop_of_le cfg env st key value size hidx hs ht hp
  have hnext := loopBody_next_of_lt cfg env st key value size hidx hs ht hp
  refine ⟨⟨?_, ?_⟩, ?_, ?_⟩
  · rintro ⟨st', o, h⟩
    by_contra hnle
    rw [hnext (not_le.1 hnle)] at h
    cases h
  · intro hle
    exact ⟨_, _, hstop hle⟩
  · intro hle
    refine ⟨?_, rfl, rfl, rfl⟩
    simp [scanLoop, hstop hle]
  · intro hlt
    refine ⟨hnext hlt, ?_⟩
    simp [scanLoop, hnext hlt]

/-- Witness for C6: the round started at the third entry of `src3` with
`BatchSize = 1`, a 5-byte source directory and `MaxSize = 5`. -/
theorem round_stops_iff_size_le_witness :
    (accumulate (initState src3 []) (src3.take 2)).batchIndex > (cfgOf 5 1).BatchSize ∧
    (envOk 5).sdbWriteErr (accumulate (initState src3 []) (src3.take 2)).round = none ∧
    (envOk 5).tdbWriteErr (accumulate (initState src3 []) (src3.take 2)).round = none ∧
    getSize ((envOk 5).sourceDirWalk (accumulate (initState src3 []) (src3.take 2)).round)
      = .ret 5 none ∧
    ((∃ st' o, loopBody (cfgOf 5 1) (envOk 5)
        (accumulate (initState src3 []) (src3.take 2)) [3] [30] = .stop st' o) ↔
      (5 : Int) ≤ (cfgOf 5 1).MaxSize) :=
  ⟨by decide, rfl, rfl, by decide,
    (round_stops_iff_size_le (cfgOf 5 1) (envOk 5)
      (accumulate (initState src3 []) (src3.take 2)) [3] [30] [] 5
      (by decide) rfl rfl (by decide)).1⟩

/-- C7: on an empty source the loop is left at once as `drained`; nothing is
written to either store, no size is measured, no error arises and both
stores are as before. -/
theorem empty_source_drained (cfg : config) (env : Env) (tgt : Store) :
    migrate cfg env [] tgt = (initState [] tgt, .drained) ∧
    (migrate cfg env [] tgt).2 = .drained ∧
    (migrate cfg env [] tgt).1.log = [] ∧
    writeCount (migrate cfg env [] tgt).1.log = 0 ∧
    probeCount (migrate cfg env [] tgt).1.log = 0 ∧
    (migrate cfg env [] tgt).1.sdb = [] ∧
    (migrate cfg env [] tgt).1.tdb = tgt :=
  ⟨rfl, rfl, rfl, rfl, rfl, rfl, rfl⟩

/-! ## The source store is never changed -/

theorem SourceInv_appendEntry (src : Store) (st : State) (k v : Bytes)
    (hm : (k, v) ∈ src) (h : SourceInv src st) : SourceInv src (appendEntry st k v) := by
  obtain ⟨h1, h2, h3⟩ := h
  refine ⟨h1, ?_, h3⟩
  intro op hop
  simp only [appendEntry, List.mem_append, List.mem_singleton] at hop
  rcases hop with hop | hop
  · exact h2 op hop
  · exact ⟨k, v, hop, hm⟩

theorem SourceInv_loopBody (cfg : config) (env : Env) (src : Store)
    (hn : src.keys.Nodup) (st : State) (k v : Bytes) (hm : (k, v) ∈ src)
    (h : SourceInv src st) :
    (∀ st', loopBody cfg env st k v = .next st' → SourceInv src st') ∧
    (∀ st' o, loopBody cfg env st k v = .stop st' o → SourceInv src st') := by
  have hkeep : applyBatch st.sdb st.sourceBatch = src := by
    rw [h.1]; exact applyBatch_puts_eq_self src hn _ h.2.1
  have hlog : ∀ (extra : List Event),
      (∀ ev ∈ extra, ∀ b e, ev = Event.sdbWrite b e → b = st.sourceBatch) →
      ∀ b e, Event.sdbWrite b e ∈ st.log ++ extra → ∀ op ∈ b, RewritesEntryOf src op := by
    intro extra hextra b e hmem
    rcases List.mem_append.1 hmem with hmem | hmem
    · exact h.2.2 b e hmem
    · rw [hextra _ hmem b e rfl]; exact h.2.1
  by_cases hidx : st.batchIndex > cfg.BatchSize
  · cases hs : env.sdbWriteErr st.round with
    | some e =>
      constructor
      · intro st' hb
        simp [loopBody, hidx, hs] at hb
      · intro st' o hb
        simp only [loopBody, hidx, hs, if_true] at hb
        injection hb with hst ho
        subst hst
        refine ⟨h.1, h.2.1, hlog _ ?_⟩
        intro ev hev b e' hbe
        simp only [List.mem_singleton] at hev
        rw [hev] at hbe
        injection hbe with hb1 _
        exact hb1.symm
    | none =>
      cases ht : env.tdbWriteErr st.round with
      | some e =>
        constructor
        · intro st' hb
          simp [loopBody, hidx, hs, ht] at hb
        · intro st' o hb
          simp only [loopBody, hidx, hs, ht, if_true] at hb
          injection hb with hst ho
          subst hst
          refine ⟨hkeep, h.2.1, ?_⟩
          intro b e' hmem
          simp only [List.append_assoc] at hmem
          refine hlog _ ?_ b e' hmem
          intro ev hev b e' hbe
          simp only [List.singleton_append, List.mem_cons, List.mem_singleton,
            List.not_mem_nil, or_false] at hev
          rcases hev with hev | hev
          · rw [hev] at hbe
            injection hbe with hb1 _
            exact hb1.symm
          · rw [hev] at hbe
            cases hbe
      | none =>
        have hlog3 : ∀ r b e,
            Event.sdbWrite b e ∈ ((st.log ++ [Event.sdbWrite st.sourceBatch none]) ++
              [Event.tdbWrite st.targetBatch none]) ++ [Event.getSize r] →
            ∀ op ∈ b, RewritesEntryOf src op := by
          intro r b e' hmem
          simp only [List.append_assoc] at hmem
          refine hlog _ ?_ b e' hmem
          intro ev hev b e' hbe
          simp only [List.singleton_append, List.mem_cons, List.mem_singleton,
            List.not_mem_nil, or_false] at hev
          rcases hev with hev | hev | hev
          · rw [hev] at hbe
            injection hbe with hb1 _
            exact hb1.symm
          · rw [hev] at hbe
            cases hbe
          · rw [hev] at hbe
            cases hbe
        cases hp : getSize (env.sourceDirWalk st.round) with
        | panicked =>
          constructor
          · intro st' hb
            simp [loopBody, hidx, hs, ht, hp] at hb
          · intro st' o hb
            simp only [loopBody, hidx, hs, ht, hp, if_true] at hb
            injection hb with hst ho
            subst hst
            exact ⟨hkeep, h.2.1, hlog3 _⟩
        | ret size err =>
          cases err with
          | some e =>
            constructor
            · intro st' hb
              simp [loopBody, hidx, hs, ht, hp] at hb
            · intro st' o hb
              simp only [loopBody, hidx, hs, ht, hp, if_true] at hb
              injection hb with hst ho
              subst hst
              exact ⟨hkeep, h.2.1, hlog3 _⟩
          | none =>
            by_cases hle : size ≤ cfg.MaxSize
            · constructor
              · intro st' hb
                simp [loopBody, hidx, hs, ht, hp, hle] at hb
              · intro st' o hb
                simp only [loopBody, hidx, hs, ht, hp, hle, if_true] at hb
                injection hb with hst ho
                subst hst
                exact ⟨hkeep, h.2.1, hlog3 _⟩
            · constructor
              · intro st' hb
                simp only [loopBody, hidx, hs, ht, hp, hle, if_true, if_false] at hb
                injection hb with hst
                subst hst
                apply SourceInv_appendEntry src _ k v hm
                exact ⟨hkeep, h.2.1, hlog3 _⟩
              · intro st' o hb
                simp [loopBody, hidx, hs, ht, hp, hle] at hb
  · rw [loopBody_below cfg env st k v hidx]
    constructor
    · intro st' hb
      injection hb with hst
      subst hst
      exact SourceInv_appendEntry src st k v hm h
    · intro st' o hb
      cases hb

theorem SourceInv_scanLoop (cfg : config) (env : Env) (src : Store)
    (hn : src.keys.Nodup) (l : List (Bytes × Bytes)) (hl : ∀ p ∈ l, p ∈ src)
    (st : State) (h : SourceInv src st) : SourceInv src (scanLoop cfg env l st).1 := by
  refine scanLoop_induct cfg env (SourceInv src) (fun r => SourceInv src r.1) l
    (fun st h => h) ?_ ?_ st h
  · intro st k v st' hm hP hb
    exact (SourceInv_loopBody cfg env src hn st k v (hl _ hm) hP).1 st' hb
  · intro st k v st' o hm hP hb
    exact (SourceInv_loopBody cfg env src hn st k v (hl _ hm) hP).2 st' o hb

theorem SourceInv_migrate (cfg : config) (env : Env) (src tgt : Store)
    (hn : src.keys.Nodup) : SourceInv src (migrate cfg env src tgt).1 := by
  apply SourceInv_scanLoop cfg env src hn src (fun p hp => hp)
  refine ⟨rfl, ?_, ?_⟩
  · intro op hop
    simp [initState] at hop
  · intro b e hmem
    simp [initState] at hmem

/-- C10: whatever the batch size, the size limit, the measured sizes and the
write failures, a run over a source with unique keys leaves the source store
as it was: every record of every batch handed to `sdb.Write` is a put of an
entry read from the source itself, and none is a delete. -/
theorem source_store_unchanged (cfg : config) (env : Env) (src tgt : Store)
    (hn : src.keys.Nodup) :
    (migrate cfg env src tgt).1.sdb = src ∧
    (∀ k, (migrate cfg env src tgt).1.sdb.get k = src.get k) ∧
    (∀ b e, Event.sdbWrite b e ∈ (migrate cfg env src tgt).1.log →
      ∀ op ∈ b, (∃ k v, op = Op.put k v ∧ (k, v) ∈ src) ∧ ∀ k, op ≠ Op.delete k) := by
  obtain ⟨h1, _, h3⟩ := SourceInv_migrate cfg env src tgt hn
  refine ⟨h1, fun k => by rw [h1], ?_⟩
  intro b e hmem op hop
  obtain ⟨k, v, rfl, hkv⟩ := h3 b e hmem op hop
  exact ⟨⟨k, v, rfl, hkv⟩, fun k' hk => by cases hk⟩

/-- Witness for C10: four entries, `BatchSize = 1`, two rounds written. -/
theorem source_store_unchanged_witness :
    src4.keys.Nodup ∧ (migrate (cfgOf 1 1) (envOk 100) src4 []).1.sdb = src4 :=
  ⟨by decide, (source_store_unchanged (cfgOf 1 1) (envOk 100) src4 [] (by decide)).1⟩

/-! ## The first round -/

theorem scanLoop_reaches_round (cfg : config) (env : Env) (l : List (Bytes × Bytes)) :
    ∀ st : State, st.batchIndex ≤ cfg.BatchSize + 1 →
      cfg.BatchSize + 1 < st.batchIndex + (l.length : Int) →
      ∃ pre key value rest, l = pre ++ (key, value) :: rest ∧
        (accumulate st pre).batchIndex > cfg.BatchSize ∧
        scanLoop cfg env l st =
          scanLoop cfg env ((key, value) :: rest) (accumulate st pre) := by
  induction l with
  | nil =>
    intro st h1 h2
    simp only [List.length_nil, Nat.cast_zero, add_zero] at h2
    omega
  | cons p l ih =>
    intro st h1 h2
    obtain ⟨k, v⟩ := p
    by_cases h : st.batchIndex > cfg.BatchSize
    · exact ⟨[], k, v, l, rfl, h, rfl⟩
    · have hstep : scanLoop cfg env ((k, v) :: l) st =
          scanLoop cfg env l (appendEntry st k v) := by
        simp [scanLoop, loopBody_below cfg env st k v h]
      have hbi : (appendEntry st k v).batchIndex = st.batchIndex + 1 := rfl
      simp only [List.length_cons, Nat.cast_add, Nat.cast_one] at h2
      obtain ⟨pre, key, value, rest, hl, hi, hs⟩ :=
        ih (appendEntry st k v) (by rw [hbi]; omega) (by rw [hbi]; omega)
      refine ⟨(k, v) :: pre, key, value, rest, ?_, hi, ?_⟩
      · simp [hl]
      · rw [hstep, hs]; rfl

theorem scanLoop_no_round (cfg : config) (env : Env) (l : List (Bytes × Bytes)) :
    ∀ st : State, st.batchIndex + (l.length : Int) ≤ cfg.BatchSize →
      scanLoop cfg env l st = (accumulate st l, .drained) := by
  induction l with
  | nil => intro st _; rfl
  | cons p l ih =>
    intro st h
    obtain ⟨k, v⟩ := p
    simp only [List.length_cons, Nat.cast_add, Nat.cast_one] at h
    have hidx : ¬ st.batchIndex > cfg.BatchSize := by omega
    have hbi : (appendEntry st k v).batchIndex = st.batchIndex + 1 := rfl
    have hrest := ih (appendEntry st k v) (by rw [hbi]; omega)
    simp only [scanLoop, loopBody_below cfg env st k v hidx]
    rw [hrest]
    rfl

/-- C3 as stated fails, in three ways.  With `BatchSize = 1`, three entries
and a source directory of 5 bytes against `MaxSize = 5`, two writes are made
before the first size measurement.  With the directory at 5 bytes when the run
starts but measured at 100 bytes by the first measurement, the run does not
stop after that measurement.  With a single entry no size is measured at all
and the run ends `drained`. -/
theorem zero_commits_refuted :
    getSize (oneFile 5) = .ret 5 none ∧
    getSize ((envOk 5).sourceDirWalk 0) = .ret 5 none ∧
    (5 : Int) ≤ (cfgOf 5 1).MaxSize ∧
    (1 : Int) ≤ (cfgOf 5 1).BatchSize ∧
    writeCount (migrate (cfgOf 5 1) (envOk 5) src3 []).1.log = 2 ∧
    ¬ writeCount (migrate (cfgOf 5 1) (envOk 5) src3 []).1.log = 0 ∧
    getSize ((envOk 100).sourceDirWalk 0) = .ret 100 none ∧
    (migrate (cfgOf 5 1) (envOk 100) src3 []).2 = .drained ∧
    (migrate (cfgOf 5 1) (envOk 100) src3 []).2 ≠ .targetReached ∧
    (migrate (cfgOf 5 1) (envOk 5) [([1], [10])] []).2 = .drained ∧
    probeCount (migrate (cfgOf 5 1) (envOk 5) [([1], [10])] []).1.log = 0 := by
  decide

/-- C3 (amended): let the source directory measure at most `MaxSize` when the
run starts (`atStart` is what a walk sees then) and let the run's first size
measurement report the same, with `BatchSize >= 1`.  A source of at most
`BatchSize` entries is scanned without any write or measurement and the run
ends `drained` with both stores as before.  A source of more than
`BatchSize + 1` entries whose first round's two writes succeed gets exactly
one batch written to each store, then the first measurement, and the run
stops right there with `targetReached`: the log holds these three calls and
nothing else, and the stores differ from before by those two batches only. -/
theorem first_probe_at_or_below_limit (cfg : config) (env : Env) (src tgt : Store)
    (atStart : List WalkEvent) (size : Int)
    (hb : 1 ≤ cfg.BatchSize)
    (h0 : getSize atStart = .ret size none)
    (hle : size ≤ cfg.MaxSize)
    (hsame : getSize (env.sourceDirWalk 0) = getSize atStart) :
    ((src.length : Int) ≤ cfg.BatchSize →
      (migrate cfg env src tgt).1.log = [] ∧
      writeCount (migrate cfg env src tgt).1.log = 0 ∧
      probeCount (migrate cfg env src tgt).1.log = 0 ∧
      (migrate cfg env src tgt).2 = .drained ∧
      (migrate cfg env src tgt).1.sdb = src ∧
      (migrate cfg env src tgt).1.tdb = tgt) ∧
    (cfg.BatchSize + 1 < (src.length : Int) →
      env.sdbWriteErr 0 = none → env.tdbWriteErr 0 = none →
      ∃ sb tb,
        (migrate cfg env src tgt).1.log =
          [Event.sdbWrite sb none, Event.tdbWrite tb none,
           Event.getSize (.ret size none)] ∧
        writeCount (migrate cfg env src tgt).1.log = 2 ∧
        probeCount (migrate cfg env src tgt).1.log = 1 ∧
        (migrate cfg env src tgt).2 = .targetReached ∧
        (migrate cfg env src tgt).1.sdb = applyBatch src sb ∧
        (migrate cfg env src tgt).1.tdb = applyBatch tgt tb) := by
  constructor
  · intro hlen
    have hrun : migrate cfg env src tgt =
        (accumulate (initState src tgt) src, .drained) :=
      scanLoop_no_round cfg env src (initState src tgt)
        (by show (0 : Int) + (src.length : Int) ≤ cfg.BatchSize; omega)
    obtain ⟨f1, f2, _, f4, _, _, _⟩ := accumulate_fields src (initState src tgt)
    have hlog : (migrate cfg env src tgt).1.log = [] := by rw [hrun]; exact f4
    refine ⟨hlog, ?_, ?_, ?_, ?_, ?_⟩
    · rw [hlog]; rfl
    · rw [hlog]; rfl
    · rw [hrun]
    · rw [hrun]; exact f1
    · rw [hrun]; exact f2
  · intro hlen hs ht
    obtain ⟨pre, key, value, rest, _, hidx, hrun⟩ :=
      scanLoop_reaches_round cfg env src (initState src tgt)
        (by show (0 : Int) ≤ cfg.BatchSize + 1; omega)
        (by show cfg.BatchSize + 1 < (0 : Int) + (src.length : Int); omega)
    obtain ⟨f1, f2, f3, f4, _, _, _⟩ := accumulate_fields pre (initState src tgt)
    have f3' : (accumulate (initState src tgt) pre).round = 0 := f3
    have hp : getSize (env.sourceDirWalk 0) = .ret size none := by rw [hsame, h0]
    have hstop := loopBody_stop_of_le cfg env (accumulate (initState src tgt) pre)
      key value size hidx (by rw [f3']; exact hs) (by rw [f3']; exact ht)
      (by rw [f3']; exact hp) hle
    have hres : migrate cfg env src tgt =
        (afterRound (accumulate (initState src tgt) pre) (.ret size none),
          .targetReached) := by
      unfold migrate
      rw [hrun]
      simp [scanLoop, hstop]
    have hlog0 : (accumulate (initState src tgt) pre).log = [] := f4
    have hsdb : (accumulate (initState src tgt) pre).sdb = src := f1
    have htdb : (accumulate (initState src tgt) pre).tdb = tgt := f2
    have hlog : (migrate cfg env src tgt).1.log =
        [Event.sdbWrite (accumulate (initState src tgt) pre).sourceBatch none,
         Event.tdbWrite (accumulate (initState src tgt) pre).targetBatch none,
         Event.getSize (.ret size none)] := by
      rw [hres]
      simp only [afterRound, hlog0, List.nil_append]
    refine ⟨(accumulate (initState src tgt) pre).sourceBatch,
      (accumulate (initState src tgt) pre).targetBatch, hlog, ?_, ?_, ?_, ?_, ?_⟩
    · rw [hlog]; rfl
    · rw [hlog]; rfl
    · rw [hres]
    · rw [hres]
      simp only [afterRound, hsdb]
    · rw [hres]
      simp only [afterRound, htdb]

/-- Witness for C3 (amended): `BatchSize = 1`, a 5-byte source directory at
the start and at the first measurement, `MaxSize = 5`; three entries give the
round and the stop, a single entry gives the scan without a round. -/
theorem first_probe_at_or_below_limit_witness :
    (1 : Int) ≤ (cfgOf 5 1).BatchSize ∧
    getSize (oneFile 5) = .ret 5 none ∧
    (5 : Int) ≤ (cfgOf 5 1).MaxSize ∧
    getSize ((envOk 5).sourceDirWalk 0) = getSize (oneFile 5) ∧
    (cfgOf 5 1).BatchSize + 1 < (src3.length : Int) ∧
    (envOk 5).sdbWriteErr 0 = none ∧ (envOk 5).tdbWriteErr 0 = none ∧
    (∃ sb tb,
      (migrate (cfgOf 5 1) (envOk 5) src3 [([1], [7])]).1.log =
        [Event.sdbWrite sb none, Event.tdbWrite tb none,
         Event.getSize (.ret 5 none)] ∧
      writeCount (migrate (cfgOf 5 1) (envOk 5) src3 [([1], [7])]).1.log = 2 ∧
      probeCount (migrate (cfgOf 5 1) (envOk 5) src3 [([1], [7])]).1.log = 1 ∧
      (migrate (cfgOf 5 1) (envOk 5) src3 [([1], [7])]).2 = .targetReached ∧
      (migrate (cfgOf 5 1) (envOk 5) src3 [([1], [7])]).1.sdb = applyBatch src3 sb ∧
      (migrate (cfgOf 5 1) (envOk 5) src3 [([1], [7])]).1.tdb =
        applyBatch [([1], [7])] tb) ∧
    ((List.length [(([1] : Bytes), ([10] : Bytes))] : Int) ≤ (cfgOf 5 1).BatchSize) ∧
    (migrate (cfgOf 5 1) (envOk 5) [([1], [10])] [([1], [7])]).2 = .drained :=
  ⟨by decide, by decide, by decide, by decide, by decide, rfl, rfl,
    (first_probe_at_or_below_limit (cfgOf 5 1) (envOk 5) src3 [([1], [7])] (oneFile 5) 5
      (by decide) (by decide) (by decide) (by decide)).2 (by decide) rfl rfl,
    by decide,
    ((first_probe_at_or_below_limit (cfgOf 5 1) (envOk 5) [([1], [10])] [([1], [7])]
      (oneFile 5) 5 (by decide) (by decide) (by decide) (by decide)).1 (by decide)).2.2.2.1⟩

/-- C2 (what the code does): with `BatchSize = 1`, every write succeeding and
every measured size (100) above `MaxSize = 1`, the run over three entries
drains the iterator, yet every key the source held is still in the source and
none is in the target; over a single entry nothing is written at all. -/
theorem completed_run_relocates_nothing :
    (migrate (cfgOf 1 1) (envOk 100) src3 []).2 = .drained ∧
    (migrate (cfgOf 1 1) (envOk 100) src3 []).1.log =
      [Event.sdbWrite [Op.put [1] [10], Op.put [2] [20]] none,
       Event.tdbWrite [Op.delete [1], Op.delete [2]] none,
       Event.getSize (.ret 100 none)] ∧
    (migrate (cfgOf 1 1) (envOk 100) src3 []).1.sdb = src3 ∧
    (migrate (cfgOf 1 1) (envOk 100) src3 []).1.tdb = [] ∧
    (migrate (cfgOf 1 1) (envOk 100) src3 []).1.sdb.get [1] = some [10] ∧
    (migrate (cfgOf 1 1) (envOk 100) src3 []).1.tdb.get [1] = none ∧
    migrate (cfgOf 1 1) (envOk 100) [([1], [10])] [] =
      ({ sdb := [([1], [10])], tdb := [], batchIndex := 1,
         sourceBatch := [Op.put [1] [10]], targetBatch := [Op.delete [1]],
         round := 0, log := [] }, .drained) := by
  decide

/-- C4 (what the code does): with `BatchSize = 1`, whatever the size limit,
the environment and the entries, nothing is written while only one or two
entries have been visited, and the first write, made when the third entry is
reached, is the source-side write of the records of the first two entries. -/
theorem batch_size_one_first_write_has_two_entries (maxSize : Int) (env : Env)
    (k1 v1 k2 v2 k3 v3 : Bytes) (rest : List (Bytes × Bytes)) (tgt : Store) :
    (migrate (cfgOf maxSize 1) env [(k1, v1)] tgt).1.log = [] ∧
    (migrate (cfgOf maxSize 1) env [(k1, v1), (k2, v2)] tgt).1.log = [] ∧
    (migrate (cfgOf maxSize 1) env ((k1, v1) :: (k2, v2) :: (k3, v3) :: rest) tgt).1.log.head? =
      some (Event.sdbWrite [Op.put k1 v1, Op.put k2 v2] (env.sdbWriteErr 0)) ∧
    (migrate (cfgOf 1 1) (envOk 100) src3 []).1.log.head? =
      some (Event.sdbWrite [Op.put [1] [10], Op.put [2] [20]] none) := by
  refine ⟨rfl, rfl, ?_, by decide⟩
  have hrun : migrate (cfgOf maxSize 1) env ((k1, v1) :: (k2, v2) :: (k3, v3) :: rest) tgt =
      scanLoop (cfgOf maxSize 1) env ((k3, v3) :: rest)
        (accumulate (initState ((k1, v1) :: (k2, v2) :: (k3, v3) :: rest) tgt)
          [(k1, v1), (k2, v2)]) := rfl
  obtain ⟨ext, hext⟩ := scanLoop_round_first_event (cfgOf maxSize 1) env
    (accumulate (initState ((k1, v1) :: (k2, v2) :: (k3, v3) :: rest) tgt)
      [(k1, v1), (k2, v2)]) k3 v3 rest (show ((0 : Int) + 1 + 1) > 1 by decide)
  rw [hrun, hext]
  rfl

/-- C9 (what the code does): after a round whose writes succeed and whose
measured size (100) is above `MaxSize = 1`, the counter and the batches are
kept: with `BatchSize = 1` and four entries the second round comes at the very
next entry, its batches contain the first round's records again, and the
counter ends at 4.  In general, whenever a pass goes on to the next entry,
round or not, the counter is one more than before and both batches are the
previous ones with the entry's record appended. -/
theorem round_keeps_counter_and_batches :
    (migrate (cfgOf 1 1) (envOk 100) src4 []).1.log =
      [Event.sdbWrite [Op.put [1] [10], Op.put [2] [20]] none,
       Event.tdbWrite [Op.delete [1], Op.delete [2]] none,
       Event.getSize (.ret 100 none),
       Event.sdbWrite [Op.put [1] [10], Op.put [2] [20], Op.put [3] [30]] none,
       Event.tdbWrite [Op.delete [1], Op.delete [2], Op.delete [3]] none,
       Event.getSize (.ret 100 none)] ∧
    (migrate (cfgOf 1 1) (envOk 100) src4 []).1.batchIndex = 4 ∧
    (migrate (cfgOf 1 1) (envOk 100) src4 []).1.sourceBatch =
      [Op.put [1] [10], Op.put [2] [20], Op.put [3] [30], Op.put [4] [40]] ∧
    (migrate (cfgOf 1 1) (envOk 100) src4 []).2 = .drained ∧
    (∀ (cfg : config) (env : Env) (st st' : State) (key value : Bytes),
      loopBody cfg env st key value = .next st' →
        st'.batchIndex = st.batchIndex + 1 ∧
        st'.sourceBatch = st.sourceBatch ++ [Op.put key value] ∧
        st'.targetBatch = st.targetBatch ++ [Op.delete key]) := by
  refine ⟨by decide, by decide, by decide, by decide, ?_⟩
  intro cfg env st st' key value hb
  exact loopBody_next_fields cfg env st key value st' hb

end LevelDBReducer
